import Mathlib

/-!
Shallow embedding of the FAA advisory serverless functions
(`src/unnamed/part_000`, the write-trigger / ingestion pipeline, and
`src/api/spacex/advisories.ts`, the read endpoint).

Strings are modelled as `List Char`; JavaScript exceptions are modelled
with `Except`; the MongoDB collection is modelled as a list of records
with `replaceOne`-with-upsert semantics; the upstream fetch is modelled
as an `Except`-valued input to the handler.
-/

set_option maxRecDepth 10000

namespace FaaAdvisory

abbrev Str := List Char

/-- JavaScript `String.prototype.toUpperCase` restricted to the ASCII
letters that actually occur in the advisory dialect. -/
def upcase (s : Str) : Str := s.map Char.toUpper

/-- Whitespace characters removed by JavaScript `String.prototype.trim`. -/
def isWsChar (c : Char) : Bool := c = ' ' || c = '\t' || c = '\n' || c = '\r'

/-- JavaScript `String.prototype.trim`. -/
def trim (s : Str) : Str := ((s.dropWhile isWsChar).reverse.dropWhile isWsChar).reverse

/-- JavaScript `String.prototype.split` with a one-character separator:
never returns the empty list, and `"".split(sep)` is `[""]`. -/
def splitOn (sep : Char) : Str → List Str
  | [] => [[]]
  | c :: rest =>
    if c = sep then [] :: splitOn sep rest
    else
      match splitOn sep rest with
      | [] => [[c]]
      | t :: ts => (c :: t) :: ts

/-- JavaScript `String.prototype.slice` for non-negative `i ≤ j`:
clamps instead of failing, so short inputs yield short outputs. -/
def sliceJS (s : Str) (i j : Nat) : Str := (s.drop i).take (j - i)

/-- JavaScript `String.prototype.padStart(2, "0")`. -/
def padStart2 (s : Str) : Str :=
  if s.length < 2 then List.replicate (2 - s.length) '0' ++ s else s

/-- JavaScript number-to-string coercion for the natural numbers used
here (template-literal interpolation of a year or month ordinal). -/
def natToStr (n : Nat) : Str := Nat.toDigits 10 n

/-- The error taxonomy of the parsing layer.  In the source every error
is a JavaScript `Error`; the constructors record which `throw` site
produced it.  `jsTypeError` models a `TypeError` raised by touching a
property of `undefined` (a destructured element that is absent). -/
inductive ParseErr where
  | unknownMonth (abbr : Str)
  | malformedDatePart (datePart : Str)
  | malformedTimePart (timePart : Str)
  | jsTypeError
deriving DecidableEq, Repr

/-- The `monthMap` object literal of the source. -/
def monthMap : List (Str × Nat) :=
  [("JAN".data, 1), ("FEB".data, 2), ("MAR".data, 3), ("APR".data, 4),
   ("MAY".data, 5), ("JUN".data, 6), ("JUL".data, 7), ("AUG".data, 8),
   ("SEP".data, 9), ("OCT".data, 10), ("NOV".data, 11), ("DEC".data, 12)]

/-- `getMonth`: upper-case the abbreviation, look it up in `monthMap`,
and throw when the lookup misses (all stored ordinals are truthy, so the
JavaScript falsiness test is exactly a lookup miss). -/
def getMonth (abbr : Str) : Except ParseErr Nat :=
  match monthMap.lookup (upcase abbr) with
  | some m => .ok m
  | none => .error (.unknownMonth abbr)

/-- `${year}-${String(month).padStart(2, "0")}-${day.padStart(2, "0")}`. -/
def fmtDate (year : Nat) (month : Nat) (day : Str) : Str :=
  natToStr year ++ "-".data ++ padStart2 (natToStr month) ++ "-".data ++ padStart2 day

/-- `getMonth(monPart[1])` where `monPart[1]` comes from destructuring a
`split(' ')` result: when the element is absent the JavaScript value is
`undefined` and `getMonth` throws a `TypeError` on
`undefined.toUpperCase()`. -/
def jsGetMonth (o : Option Str) : Except ParseErr Nat :=
  match o with
  | some s => getMonth s
  | none => .error .jsTypeError

/-- `parseDatePart`: split on `/`, trim both parts, require exactly two
parts (`if (parts.length !== 2) throw`, written positively), then
dispatch on whether the first part contains a space.  Any error raised
inside the `try` (an unknown month, or the `TypeError` from
destructuring a missing ` MON` half) is re-thrown as the
malformed-date-part error. -/
def parseDatePart (datePart : Str) (year : Nat) : Except ParseErr (Str × Str) :=
  let parts := (splitOn '/' datePart).map trim
  if parts.length = 2 then
    let first := parts.headD []
    let second := (parts[1]?).getD []
    let inner : Except ParseErr (Str × Str) :=
      if first.contains ' ' then do
        let m1 ← jsGetMonth ((splitOn ' ' first)[1]?)
        let m2 ← jsGetMonth ((splitOn ' ' second)[1]?)
        pure (fmtDate year m1 ((splitOn ' ' first).headD []),
              fmtDate year m2 ((splitOn ' ' second).headD []))
      else do
        let m ← jsGetMonth ((splitOn ' ' second)[1]?)
        pure (fmtDate year m first, fmtDate year m ((splitOn ' ' second).headD []))
    match inner with
    | .ok v => .ok v
    | .error _ => .error (.malformedDatePart datePart)
  else .error (.malformedDatePart datePart)

/-- `${side.slice(0, 2)}:${side.slice(2, 4)}:00Z`. -/
def fmtTime (side : Str) : Str :=
  sliceJS side 0 2 ++ ":".data ++ sliceJS side 2 4 ++ ":00Z".data

/-- `parseTimePart`: split on `-` and slice each side.  When the input
has no `-`, the destructured `end` is `undefined` and `end.slice`
throws, which the `catch` re-throws as the malformed-time-part error;
`slice` itself never throws, so short sides yield garbled output. -/
def parseTimePart (timePart : Str) : Except ParseErr (Str × Str) :=
  let parts := splitOn '-' timePart
  match parts[1]? with
  | none => .error (.malformedTimePart timePart)
  | some e => .ok (fmtTime (parts.headD []), fmtTime e)

/-- The regular-expression fragment the source's pattern uses: literals,
single characters and greedy one-or-more repetitions of a character
class, greedy option, leftmost-first alternation, sequencing and
numbered capture groups.  There are no nested stars, so a backtracking
matcher is total. -/
inductive RE where
  | lit (s : Str)
  | cls (p : Char → Bool)
  | plus (p : Char → Bool)
  | alt (a b : RE)
  | opt (a : RE)
  | seq (a b : RE)
  | group (i : Nat) (a : RE)

/-- Match a literal, returning the remaining input. -/
def litMatch : Str → Str → Option Str
  | [], s => some s
  | _, [] => none
  | c :: l, d :: s => if c = d then litMatch l s else none

/-- Length of the maximal prefix run of characters satisfying `p`. -/
def runLen (p : Char → Bool) : Str → Nat
  | [] => 0
  | c :: rest => if p c then runLen p rest + 1 else 0

/-- Greedy `+`: try consuming `n` characters first, backtracking down to
one character. -/
def tryPlus {α : Type} (s : Str) (caps : List (Nat × Str))
    (k : Str → List (Nat × Str) → Option α) : Nat → Option α
  | 0 => none
  | n + 1 => (k (s.drop (n + 1)) caps).orElse fun _ => tryPlus s caps k n

/-- Backtracking matcher in continuation-passing style: greedy `+` and
`?`, leftmost alternative first — JavaScript's behaviour on this
star-free pattern.  Captures record the consumed span when a group
exits. -/
def reMatch {α : Type} : RE → Str → List (Nat × Str) →
    (Str → List (Nat × Str) → Option α) → Option α
  | .lit l, s, caps, k =>
    match litMatch l s with
    | some rest => k rest caps
    | none => none
  | .cls p, s, caps, k =>
    match s with
    | [] => none
    | c :: rest => if p c then k rest caps else none
  | .plus p, s, caps, k => tryPlus s caps k (runLen p s)
  | .alt a b, s, caps, k =>
    (reMatch a s caps k).orElse fun _ => reMatch b s caps k
  | .opt a, s, caps, k =>
    (reMatch a s caps k).orElse fun _ => k s caps
  | .seq a b, s, caps, k =>
    reMatch a s caps fun s2 caps2 => reMatch b s2 caps2 k
  | .group i a, s, caps, k =>
    reMatch a s caps fun s2 caps2 => k s2 ((i, s.take (s.length - s2.length)) :: caps2)

/-- Right-nested sequencing of a list of fragments. -/
def seqs (l : List RE) : RE := l.foldr RE.seq (RE.lit [])

/-- JavaScript `\w`. -/
def wordChar (c : Char) : Bool := c.isAlphanum || c = '_'

/-- JavaScript `\d`. -/
def digitChar (c : Char) : Bool := c.isDigit

/-- Capture group 1 of the source pattern. -/
def labelRE : RE :=
  .group 1 (seqs [.plus wordChar, .lit " Launch Day".data,
    .opt (seqs [.lit " (".data, .plus digitChar, .lit ")".data])])

/-- Capture group 2 of the source pattern. -/
def dateRE : RE :=
  .group 2 (.alt
    (seqs [.plus digitChar, .lit "/".data, .plus digitChar, .lit " ".data, .plus wordChar])
    (seqs [.plus digitChar, .lit " ".data, .plus wordChar, .lit "/".data,
           .plus digitChar, .lit " ".data, .plus wordChar]))

/-- Capture group 3 of the source pattern. -/
def timeRE : RE :=
  .group 3 (seqs [.cls digitChar, .cls digitChar, .cls digitChar, .cls digitChar,
    .lit "Z-".data, .cls digitChar, .cls digitChar, .cls digitChar, .cls digitChar,
    .lit "Z".data])

/-- The whole source pattern. -/
def detailRE : RE := seqs [labelRE, .lit " ".data, dateRE, .lit " ".data, timeRE]

/-- One successful regex match: its overall length and the three
captured groups. -/
structure RMatch where
  matchLen : Nat
  g1 : Str
  g2 : Str
  g3 : Str
deriving DecidableEq, Repr

/-- Read a capture out of the capture list (first entry wins: entries
are pushed innermost-last along the successful backtracking path). -/
def capGet (caps : List (Nat × Str)) (i : Nat) : Str :=
  match caps.lookup i with
  | some s => s
  | none => []

/-- Attempt a match anchored at position `i`. -/
def matchAt (re : RE) (s : Str) (i : Nat) : Option RMatch :=
  reMatch re (s.drop i) [] fun rest caps =>
    some { matchLen := (s.drop i).length - rest.length,
           g1 := capGet caps 1, g2 := capGet caps 2, g3 := capGet caps 3 }

/-- Leftmost match at or after position `i`; `fuel` bounds the scan. -/
def findFrom (re : RE) (s : Str) : Nat → Nat → Option (Nat × RMatch)
  | 0, _ => none
  | fuel + 1, i =>
    match matchAt re s i with
    | some m => some (i, m)
    | none => findFrom re s fuel (i + 1)

/-- The repeated `pattern.exec(details)` loop of a `g`-flag regex: each
search restarts at the end of the previous match (JavaScript advances
one position after an empty match; this pattern never matches empty). -/
def execAllGo (re : RE) (s : Str) : Nat → Nat → List RMatch
  | 0, _ => []
  | fuel + 1, pos =>
    match findFrom re s (s.length + 1 - pos) pos with
    | none => []
    | some (start, m) =>
      m :: execAllGo re s fuel (if m.matchLen = 0 then start + 1 else start + m.matchLen)

/-- All non-overlapping matches, left to right. -/
def execAll (re : RE) (s : Str) : List RMatch := execAllGo re s (s.length + 2) 0

/-- The `ParsedDetail` interface of the source. -/
structure ParsedDetail where
  type : Str
  startDate : Str
  endDate : Str
  startTime : Str
  endTime : Str
  startDatetime : Str
  endDatetime : Str
deriving DecidableEq, Repr

/-- The body of the extraction loop for one regex match: run both
sub-parsers and assemble the `ParsedDetail`; either failure propagates
to the per-occurrence `catch`. -/
def detailOfMatch (year : Nat) (m : RMatch) : Except ParseErr ParsedDetail := do
  let (sd, ed) ← parseDatePart m.g2 year
  let (st, et) ← parseTimePart m.g3
  pure { type := m.g1, startDate := sd, endDate := ed, startTime := st, endTime := et,
         startDatetime := sd ++ "T".data ++ st,
         endDatetime := ed ++ "T".data ++ et }

/-- The `while` loop of `parseDetails`: successfully converted matches
are pushed, failures are logged and skipped. -/
def parseDetailsGo (year : Nat) : List RMatch → List ParsedDetail
  | [] => []
  | m :: rest =>
    match detailOfMatch year m with
    | .ok d => d :: parseDetailsGo year rest
    | .error _ => parseDetailsGo year rest

/-- `parseDetails`: scan the details text with the source pattern and
convert each occurrence, skipping the ones whose sub-parsers throw. -/
def parseDetails (details : Str) (advisoryStartYear : Nat) : List ParsedDetail :=
  parseDetailsGo advisoryStartYear (execAll detailRE details)

/-- The `Geom` interface; the JavaScript numbers inside coordinates are
modelled as rationals. -/
structure Geom where
  type : Str
  coordinates : List (List (List Rat))
deriving DecidableEq, Repr

/-- The `Advisory` interface: the upstream record shape.  Optional
fields of the interface carry `Option` and default to absent. -/
structure Advisory where
  advisoryid : Int
  createtimestamp : Str
  status : Str
  advisorystarttime : Str
  advisoryendtime : Str
  type : Str
  summary : Str
  reason : Str
  details : Str
  createduserid : Int
  canceledbyuserid : Option Int := none
  canceltime : Option Str := none
  description : Str
  sourcelanguage : Str
  facility : Str
  anspid : Str
  fullname : Str
  displayname : Str
  country : Str
  isactive : Bool
  boundarywkt : Option Str := none
  geom : Option Geom := none
  parentansp : Option Str := none
  facilitytype : Str
  displayname_es : Str
  anspurl : Option Str := none
  pasaparticipating : Bool
  vieworder : Option Int := none
  flightlink : Bool
  advisorystarttimestr : Str
  advisoryendtimestr : Str
  parsedDetails : Option (List ParsedDetail) := none
deriving DecidableEq, Repr

/-- The `Response` interface of the upstream fetch. -/
structure UpstreamResponse where
  rows : List Advisory
deriving DecidableEq, Repr

/-- Does the pattern occur as a prefix of the text? -/
def isPrefOf : Str → Str → Bool
  | [], _ => true
  | _ :: _, [] => false
  | c :: l, d :: s => c = d && isPrefOf l s

/-- Does the pattern occur anywhere in the text? -/
def hasSubstring (sub : Str) : Str → Bool
  | [] => isPrefOf sub []
  | c :: rest => isPrefOf sub (c :: rest) || hasSubstring sub rest

/-- Case-insensitive containment of one literal, as a `/literal/i`
regex test performs it. -/
def containsCI (s kw : Str) : Bool := hasSubstring (upcase kw) (upcase s)

/-- The alternatives of `/(Starship|SpaceX|Starlink)/i`. -/
def keywords : List Str := ["Starship".data, "SpaceX".data, "Starlink".data]

/-- `/(Starship|SpaceX|Starlink)/i.test(summary)`. -/
def summaryMatches (summary : Str) : Bool := keywords.any fun kw => containsCI summary kw

/-- `data.rows.filter((advisory) => /(Starship|SpaceX|Starlink)/i.test(advisory.summary))`. -/
def relevantAdvisories (rows : List Advisory) : List Advisory :=
  rows.filter fun a => summaryMatches a.summary

/-- Decimal value of a digit string. -/
def digitsToNat (s : Str) : Nat := s.foldl (fun n c => n * 10 + (c.toNat - 48)) 0

/-- `new Date(advisory.advisorystarttime).getUTCFullYear()`, modelled
on the ISO-like timestamps the upstream sends: the leading decimal
digits of the string are the UTC year. -/
def getStartYear (s : Str) : Nat := digitsToNat (s.takeWhile Char.isDigit)

/-- `{ ...advisory, parsedDetails }`: the enrichment step of one record. -/
def enrichAdvisory (a : Advisory) : Advisory :=
  { a with parsedDetails := some (parseDetails a.details (getStartYear a.advisorystarttime)) }

/-- `collection.replaceOne({ advisoryid: doc.advisoryid }, doc, { upsert: true })`:
replace the first stored record carrying the same `advisoryid` with the
new document wholesale, appending the document when none matches. -/
def replaceFirstById : List Advisory → Advisory → List Advisory
  | [], doc => [doc]
  | r :: rest, doc =>
    if r.advisoryid = doc.advisoryid then doc :: rest
    else r :: replaceFirstById rest doc

/-- The per-record loop of `fetchAndProcessAdvisories` applied to a
fetched batch: filter, then enrich and upsert each surviving record in
order. -/
def processAdvisories (store : List Advisory) (rows : List Advisory) : List Advisory :=
  (relevantAdvisories rows).foldl (fun s a => replaceFirstById s (enrichAdvisory a)) store

/-- A failed upstream fetch. -/
inductive FetchErr where
  | network (msg : Str)
deriving DecidableEq, Repr

/-- `fetchAndProcessAdvisories`: the whole body sits inside one `try`
whose `catch` only logs, so a failed fetch leaves the store untouched
and the function returns normally. -/
def fetchAndProcessAdvisories (fetchResult : Except FetchErr UpstreamResponse)
    (store : List Advisory) : List Advisory :=
  match fetchResult with
  | .ok data => processAdvisories store data.rows
  | .error _ => store

/-- Request methods the handler distinguishes. -/
inductive Method where
  | GET
  | POST
  | OPTIONS
  | other
deriving DecidableEq, Repr

/-- A response sent via `res.status(...)`. -/
structure HttpResponse where
  status : Nat
  message : Str
deriving DecidableEq, Repr

/-- What an invocation of the handler does at its boundary: send a
response, or escape with an uncaught exception (the missing
`MONGODB_URI` throw happens outside the `try`). -/
inductive HandlerOutcome where
  | response (r : HttpResponse)
  | thrown (msg : Str)
deriving DecidableEq, Repr

/-- The write-trigger `handler` of `src/unnamed/part_000`: OPTIONS
preflight, the `MONGODB_URI` guard, connection, method dispatch, the
ingestion call, and the `catch` producing a 500 response.  The store
state is threaded alongside the outcome. -/
def handler (method : Method) (mongoUri : Option Str) (connectResult : Except Str Unit)
    (fetchResult : Except FetchErr UpstreamResponse) (store : List Advisory) :
    HandlerOutcome × List Advisory :=
  if method = .OPTIONS then (.response ⟨200, []⟩, store)
  else
    match mongoUri with
    | none => (.thrown "MONGODB_URI is not defined".data, store)
    | some _ =>
      match connectResult with
      | .error msg => (.response ⟨500, "Server error: ".data ++ msg⟩, store)
      | .ok _ =>
        if method = .POST then
          (.response ⟨200, "Advisories processed".data⟩,
           fetchAndProcessAdvisories fetchResult store)
        else (.response ⟨405, "Method not allowed".data⟩, store)

/-- Database and collection the write trigger addresses. -/
def writeTarget : Str × Str := ("advisories_db".data, "starship_advisories".data)

/-- Database and collection the read endpoint
(`src/api/spacex/advisories.ts`) addresses. -/
def readTarget : Str × Str := ("danielmillar".data, "faa_advisories".data)

/-- The document-store universe: the documents held by every
database/collection pair. -/
def DbUniverse : Type := Str × Str → List Advisory

/-- One ingestion invocation acting on the universe: only the write
target's collection is touched. -/
def ingestInvocation (u : DbUniverse) (fetchResult : Except FetchErr UpstreamResponse) :
    DbUniverse :=
  fun t => if t = writeTarget then fetchAndProcessAdvisories fetchResult (u writeTarget) else u t

/-- The read endpoint's query: `collection.find().toArray()` over its
own collection, returned unfiltered. -/
def readEndpointDocs (u : DbUniverse) : List Advisory := u readTarget

/-- A concrete advisory used to instantiate proved statements. -/
def sampleAdvisory : Advisory :=
  { advisoryid := 42, createtimestamp := "2024-05-30T12:00:00Z".data,
    status := "Active".data,
    advisorystarttime := "2024-06-01T00:00:00Z".data,
    advisoryendtime := "2024-06-04T23:59:00Z".data,
    type := "SPACE OPERATIONS".data,
    summary := "SpaceX Starship static fire advisory".data,
    reason := "Space operations".data,
    details := "Static Fire Launch Day 3 JUN/4 JUN 1200Z-1800Z".data,
    createduserid := 7, description := "Starbase TX".data,
    sourcelanguage := "en".data, facility := "ZHU".data, anspid := "FAA".data,
    fullname := "Houston ARTCC".data, displayname := "FAA".data,
    country := "USA".data, isactive := true, facilitytype := "ARTCC".data,
    displayname_es := "FAA".data, pasaparticipating := false, flightlink := false,
    advisorystarttimestr := "2024-06-01 00:00".data,
    advisoryendtimestr := "2024-06-04 23:59".data }

/-! ### Lemmas about the string helpers -/

theorem splitOn_eq_single (c : Char) :
    ∀ a : Str, (∀ x ∈ a, x ≠ c) → splitOn c a = [a]
  | [], _ => rfl
  | x :: xs, h => by
    have hx : ¬(x = c) := h x (List.mem_cons_self x xs)
    have ih := splitOn_eq_single c xs fun y hy => h y (List.mem_cons_of_mem x hy)
    simp [splitOn, hx, ih]

theorem splitOn_append (c : Char) :
    ∀ a b : Str, (∀ x ∈ a, x ≠ c) → splitOn c (a ++ c :: b) = a :: splitOn c b
  | [], b, _ => by simp [splitOn]
  | x :: xs, b, h => by
    have hx : ¬(x = c) := h x (List.mem_cons_self x xs)
    have ih := splitOn_append c xs b fun y hy => h y (List.mem_cons_of_mem x hy)
    simpa [splitOn, hx] using by rw [ih]

theorem splitOn_ne_nil (c : Char) (t : Str) : splitOn c t ≠ [] := by
  cases t with
  | nil => simp [splitOn]
  | cons x xs =>
    by_cases hx : x = c
    · simp [splitOn, hx]
    · simp only [splitOn, if_neg hx]
      cases splitOn c xs <;> simp

theorem splitOn_length_ge_two (c : Char) :
    ∀ t : Str, c ∈ t → 2 ≤ (splitOn c t).length
  | x :: xs, h => by
    by_cases hx : x = c
    · have h2 := List.length_pos.mpr (splitOn_ne_nil c xs)
      simp only [splitOn, if_pos hx, List.length_cons]
      omega
    · have hmem : c ∈ xs := by
        rcases List.mem_cons.mp h with h1 | h1
        · exact absurd h1.symm hx
        · exact h1
      have ih := splitOn_length_ge_two c xs hmem
      simp only [splitOn, if_neg hx]
      cases hs : splitOn c xs with
      | nil => exact absurd hs (splitOn_ne_nil c xs)
      | cons a as => rw [hs] at ih; simp at ih ⊢; omega

theorem dropWhile_eq_self_of_all (p : Char → Bool) (l : Str)
    (h : ∀ x ∈ l, p x = false) : l.dropWhile p = l := by
  cases l with
  | nil => rfl
  | cons x xs => simp [List.dropWhile_cons, h x (List.mem_cons_self x xs)]

theorem trim_eq_self_of_all (s : Str) (h : ∀ x ∈ s, isWsChar x = false) :
    trim s = s := by
  unfold trim
  rw [dropWhile_eq_self_of_all _ s h,
    dropWhile_eq_self_of_all _ s.reverse fun x hx => h x (List.mem_reverse.mp hx),
    List.reverse_reverse]

theorem trim_eq_self_of_ends (s : Str)
    (hh : ∀ c, s.head? = some c → isWsChar c = false)
    (hl : ∀ c, s.getLast? = some c → isWsChar c = false) : trim s = s := by
  cases s with
  | nil => rfl
  | cons x xs =>
    have hx : isWsChar x = false := hh x rfl
    have h1 : List.dropWhile isWsChar (x :: xs) = x :: xs := by
      simp [List.dropWhile_cons, hx]
    cases hr : (x :: xs).reverse with
    | nil => simp at hr
    | cons y ys =>
      have hy : isWsChar y = false := by
        apply hl
        rw [← List.head?_reverse, hr]; rfl
      have h2 : List.dropWhile isWsChar (y :: ys) = y :: ys := by
        simp [List.dropWhile_cons, hy]
      unfold trim
      rw [h1, hr, h2, ← hr, List.reverse_reverse]

/-! ### C1 -/

/-- C1 (counterexample): with a failed upstream fetch, the write-trigger
POST invocation still responds 200 `Advisories processed` — not a
server-error response — because `fetchAndProcessAdvisories` catches the
fetch error itself; the claim that it responds with a server error is
false on the code. -/
theorem fetchFailure_counterexample :
    handler .POST (some "mongodb://localhost:27017".data) (.ok ())
        (.error (.network "fetch failed".data)) [] =
      (.response ⟨200, "Advisories processed".data⟩, []) := rfl

/-- C1 (amended): if the initial upstream fetch call fails, no record is
upserted — the store comes back unchanged, so no partial batch is
produced — but the invocation does not fail: the fetch error is caught
and logged inside `fetchAndProcessAdvisories`, and the write-trigger
responds with the success message, not a server-error response. -/
theorem fetchFailure_no_upsert_success_response (e : FetchErr) (uri : Str)
    (store : List Advisory) :
    fetchAndProcessAdvisories (.error e) store = store ∧
    handler .POST (some uri) (.ok ()) (.error e) store =
      (.response ⟨200, "Advisories processed".data⟩, store) :=
  ⟨rfl, rfl⟩

/-! ### C5 -/

/-- C5 (counterexample): `"1-1430"` has a `-`-separated side with fewer
than 4 characters, yet the Time-Range Parser returns a (garbled) result
instead of failing with the malformed-time-part error. -/
theorem shortTimeSide_counterexample :
    parseTimePart "1-1430".data = .ok ("1::00Z".data, "14:30:00Z".data) := rfl

/-- C5 (amended): the Time-Range Parser fails with the
malformed-time-part `ParseError` exactly when the fragment contains no
`-` separator (the destructured second side is `undefined`); whenever a
`-` is present it returns a result, so a side with fewer than 4
characters yields garbled output rather than a failure. -/
theorem parseTimePart_error_iff_no_dash (t : Str) :
    ((∀ x ∈ t, x ≠ '-') → parseTimePart t = .error (.malformedTimePart t)) ∧
    ('-' ∈ t → ∃ p, parseTimePart t = .ok p) := by
  constructor
  · intro h
    simp only [parseTimePart]
    rw [splitOn_eq_single '-' t h]
    rfl
  · intro h
    have h2 := splitOn_length_ge_two '-' t h
    obtain ⟨e, he⟩ : ∃ e, (splitOn '-' t)[1]? = some e := by
      cases hx : (splitOn '-' t)[1]? with
      | none => rw [List.getElem?_eq_none_iff] at hx; omega
      | some e => exact ⟨e, rfl⟩
    refine ⟨(fmtTime ((splitOn '-' t).headD []), fmtTime e), ?_⟩
    simp only [parseTimePart]
    rw [he]

/-- C5 (witness): the amended statement at two concrete fragments. -/
theorem parseTimePart_error_iff_no_dash_witness :
    parseTimePart "1200".data = .error (.malformedTimePart "1200".data) ∧
    ∃ p, parseTimePart "1200-1430".data = .ok p :=
  ⟨(parseTimePart_error_iff_no_dash "1200".data).1 (by decide),
   (parseTimePart_error_iff_no_dash "1200-1430".data).2 (by decide)⟩

/-! ### C8 -/

/-- C8 (counterexample): a single-word label that is not followed by
`Launch Day` does not match the extraction pattern, so the Detail
Extractor produces no Parsed Window for it — the claim that the label
is a word only optionally followed by `Launch Day` is false on the
code. -/
theorem labelWithoutLaunchDay_counterexample :
    parseDetails "Window 3 JUN/4 JUN 1200Z-1800Z".data 2024 = [] := by decide

/-- C8 (amended): the extraction pattern requires the label word to be
followed by the literal ` Launch Day` (with an optional parenthesized
counter): a single-word label without `Launch Day` yields no Parsed
Window, while a word followed by `Launch Day` — with or without a
counter — and well-formed date-range and time-range fragments yields
exactly one Parsed Window for that occurrence. -/
theorem parseDetails_label_requires_launch_day :
    parseDetails "Window 3 JUN/4 JUN 1200Z-1800Z".data 2024 = [] ∧
    parseDetails "Static Launch Day 3 JUN/4 JUN 1200Z-1800Z".data 2024 =
      [{ type := "Static Launch Day".data, startDate := "2024-06-03".data,
         endDate := "2024-06-04".data, startTime := "12:00:00Z".data,
         endTime := "18:00:00Z".data, startDatetime := "2024-06-03T12:00:00Z".data,
         endDatetime := "2024-06-04T18:00:00Z".data }] ∧
    parseDetails "Static Launch Day (2) 3 JUN/4 JUN 1200Z-1800Z".data 2024 =
      [{ type := "Static Launch Day (2)".data, startDate := "2024-06-03".data,
         endDate := "2024-06-04".data, startTime := "12:00:00Z".data,
         endTime := "18:00:00Z".data, startDatetime := "2024-06-03T12:00:00Z".data,
         endDatetime := "2024-06-04T18:00:00Z".data }] :=
  ⟨by decide, by decide, by decide⟩

/-! ### C2 -/

theorem parseDetailsGo_eq_filterMap (year : Nat) :
    ∀ ms : List RMatch,
      parseDetailsGo year ms = ms.filterMap fun m => (detailOfMatch year m).toOption
  | [] => rfl
  | m :: rest => by
    have ih := parseDetailsGo_eq_filterMap year rest
    cases hm : detailOfMatch year m with
    | ok d => simp [parseDetailsGo, hm, List.filterMap_cons, Except.toOption, ih]
    | error e => simp [parseDetailsGo, hm, List.filterMap_cons, Except.toOption, ih]

/-- C2: for every details text and reference year the Detail Extractor
returns (it is a total function — a sub-parser failure is caught, the
occurrence is dropped) exactly the successfully converted matches of the
scan, in left-to-right source order; concretely, on a text with two
well-formed windows and one malformed window (an unknown month `FOO`) it
returns exactly the two well-formed Parsed Windows in source order. -/
theorem parseDetails_skips_failed_windows :
    (∀ (details : Str) (year : Nat),
      parseDetails details year =
        (execAll detailRE details).filterMap fun m => (detailOfMatch year m).toOption) ∧
    parseDetails "Primary Launch Day 3 JAN/5 FEB 1200Z-1430Z Backup Launch Day 5 FOO/6 FOO 1300Z-1400Z Alternate Launch Day (2) 3/5 JAN 0900Z-1700Z".data 2024 =
      [{ type := "Primary Launch Day".data, startDate := "2024-01-03".data,
         endDate := "2024-02-05".data, startTime := "12:00:00Z".data,
         endTime := "14:30:00Z".data, startDatetime := "2024-01-03T12:00:00Z".data,
         endDatetime := "2024-02-05T14:30:00Z".data },
       { type := "Alternate Launch Day (2)".data, startDate := "2024-01-03".data,
         endDate := "2024-01-05".data, startTime := "09:00:00Z".data,
         endTime := "17:00:00Z".data, startDatetime := "2024-01-03T09:00:00Z".data,
         endDatetime := "2024-01-05T17:00:00Z".data }] :=
  ⟨fun details year => parseDetailsGo_eq_filterMap year (execAll detailRE details),
   by decide⟩

/-! ### C6 -/

theorem lookup_some_mem {α β : Type} [BEq α] [LawfulBEq α] :
    ∀ (l : List (α × β)) (k : α) (v : β), l.lookup k = some v → (k, v) ∈ l
  | [], k, v, h => by simp [List.lookup] at h
  | (a, b) :: t, k, v, h => by
    by_cases hk : k == a
    · have : k = a := eq_of_beq hk
      subst this
      simp [List.lookup] at h
      subst h
      exact List.mem_cons_self _ _
    · simp only [List.lookup, hk] at h
      exact List.mem_cons_of_mem _ (lookup_some_mem t k v h)

theorem lookup_none_forall {α β : Type} [BEq α] [LawfulBEq α] :
    ∀ (l : List (α × β)) (k : α), l.lookup k = none → ∀ p ∈ l, k ≠ p.1
  | [], _, _, p, hp => by simp at hp
  | (a, b) :: t, k, h, p, hp => by
    by_cases hk : k == a
    · simp [List.lookup, hk] at h
    · rcases List.mem_cons.mp hp with h1 | h1
      · subst h1
        intro he
        exact absurd (beq_iff_eq.mpr he) (by simpa using hk)
      · simp only [List.lookup, hk] at h
        exact lookup_none_forall t k h p h1

/-- C6: for every string, either its upper-casing is one of the twelve
entries of the month table — and then Month Lookup returns that entry's
ordinal, which lies in 1..12 — or it matches none of them (in no letter
case) and Month Lookup fails with the unknown-month error. -/
theorem getMonth_cases (s : Str) :
    (∃ p ∈ monthMap, upcase s = p.1 ∧ getMonth s = .ok p.2 ∧ 1 ≤ p.2 ∧ p.2 ≤ 12) ∨
    ((∀ p ∈ monthMap, upcase s ≠ p.1) ∧ getMonth s = .error (.unknownMonth s)) := by
  cases h : monthMap.lookup (upcase s) with
  | some m =>
    left
    have hg : getMonth s = .ok m := by simp [getMonth, h]
    have hmem := lookup_some_mem monthMap (upcase s) m h
    have hrange : ∀ p ∈ monthMap, 1 ≤ p.2 ∧ p.2 ≤ 12 := by decide
    exact ⟨(upcase s, m), hmem, rfl, hg, (hrange _ hmem).1, (hrange _ hmem).2⟩
  | none =>
    right
    have hg : getMonth s = .error (.unknownMonth s) := by simp [getMonth, h]
    exact ⟨lookup_none_forall monthMap (upcase s) h, hg⟩

/-! ### C7 -/

theorem isPrefOf_iff : ∀ sub s : Str, isPrefOf sub s = true ↔ ∃ t, s = sub ++ t
  | [], s => by simp [isPrefOf]
  | c :: l, [] => by simp [isPrefOf]
  | c :: l, d :: s => by
    simp only [isPrefOf, Bool.and_eq_true, decide_eq_true_eq]
    constructor
    · rintro ⟨rfl, h⟩
      obtain ⟨t, rfl⟩ := (isPrefOf_iff l s).mp h
      exact ⟨t, rfl⟩
    · rintro ⟨t, ht⟩
      injection ht with h1 h2
      subst h1
      exact ⟨rfl, (isPrefOf_iff l s).mpr ⟨t, h2⟩⟩

theorem hasSubstring_iff (sub : Str) :
    ∀ s : Str, hasSubstring sub s = true ↔ ∃ pre post, s = pre ++ sub ++ post
  | [] => by
    constructor
    · intro h
      obtain ⟨t, ht⟩ := (isPrefOf_iff sub []).mp h
      exact ⟨[], t, by simpa using ht⟩
    · rintro ⟨pre, post, h⟩
      obtain ⟨h1, h2⟩ := List.append_eq_nil.mp h.symm
      obtain ⟨h3, h4⟩ := List.append_eq_nil.mp h1
      exact (isPrefOf_iff sub []).mpr ⟨[], by simp [h4]⟩
  | c :: rest => by
    simp only [hasSubstring, Bool.or_eq_true]
    constructor
    · rintro (h | h)
      · obtain ⟨t, ht⟩ := (isPrefOf_iff sub (c :: rest)).mp h
        exact ⟨[], t, by simpa using ht⟩
      · obtain ⟨pre, post, hp⟩ := (hasSubstring_iff sub rest).mp h
        exact ⟨c :: pre, post, by simp [hp]⟩
    · rintro ⟨pre, post, hp⟩
      cases pre with
      | nil => exact Or.inl ((isPrefOf_iff sub (c :: rest)).mpr ⟨post, by simpa using hp⟩)
      | cons p ps =>
        right
        apply (hasSubstring_iff sub rest).mpr
        injection hp with h1 h2
        exact ⟨ps, post, h2⟩

theorem summaryMatches_iff (s : Str) :
    summaryMatches s = true ↔
      ∃ kw ∈ keywords, ∃ pre post, upcase s = pre ++ upcase kw ++ post := by
  unfold summaryMatches containsCI
  rw [List.any_eq_true]
  constructor
  · rintro ⟨kw, hkw, h⟩
    exact ⟨kw, hkw, (hasSubstring_iff (upcase kw) (upcase s)).mp h⟩
  · rintro ⟨kw, hkw, h⟩
    exact ⟨kw, hkw, (hasSubstring_iff (upcase kw) (upcase s)).mpr h⟩

/-- C7: the Relevance Filter returns an order-preserving subsequence of
the input; a record survives exactly when it came from the input and its
upper-cased summary contains one of the upper-cased operator keywords as
a contiguous substring; concretely a record whose summary is
`Starship static fire advisory` is kept while one whose summary is
`Routine airspace notice` is dropped.  The filter is a pure function on
its input list. -/
theorem relevantAdvisories_spec :
    (∀ rows : List Advisory, (relevantAdvisories rows).Sublist rows) ∧
    (∀ (rows : List Advisory) (a : Advisory),
      a ∈ relevantAdvisories rows ↔
        a ∈ rows ∧ ∃ kw ∈ keywords, ∃ pre post, upcase a.summary = pre ++ upcase kw ++ post) ∧
    relevantAdvisories
        [{ sampleAdvisory with summary := "Starship static fire advisory".data },
         { sampleAdvisory with summary := "Routine airspace notice".data }] =
      [{ sampleAdvisory with summary := "Starship static fire advisory".data }] := by
  refine ⟨fun rows => List.filter_sublist rows, fun rows a => ?_, by decide⟩
  simp only [relevantAdvisories, List.mem_filter, summaryMatches_iff]

/-! ### C4 -/

theorem parseTimePart_two_parts (t a b : Str) (h : splitOn '-' t = [a, b]) :
    parseTimePart t = .ok (fmtTime a, fmtTime b) := by
  simp only [parseTimePart]
  rw [h]
  rfl

theorem digit_ne_dash {x : Char} (h : x.isDigit = true) : x ≠ '-' := by
  intro he
  subst he
  exact absurd h (by decide)

/-- C4: on every well-formed time fragment — four digits, `-`, four
digits, each side with or without a trailing `Z` marker — the
Time-Range Parser returns the pair of `HH:MM:00Z` strings built from
the first four digits of each side: seconds are always `00` and the
literal `Z` suffix is appended. -/
theorem parseTimePart_wellFormed (c1 c2 c3 c4 d1 d2 d3 d4 : Char) (z1 z2 : Str)
    (h1 : c1.isDigit = true) (h2 : c2.isDigit = true)
    (h3 : c3.isDigit = true) (h4 : c4.isDigit = true)
    (h5 : d1.isDigit = true) (h6 : d2.isDigit = true)
    (h7 : d3.isDigit = true) (h8 : d4.isDigit = true)
    (hz1 : z1 = [] ∨ z1 = ['Z']) (hz2 : z2 = [] ∨ z2 = ['Z']) :
    parseTimePart ([c1, c2, c3, c4] ++ z1 ++ '-' :: ([d1, d2, d3, d4] ++ z2)) =
      .ok ([c1, c2] ++ ":".data ++ [c3, c4] ++ ":00Z".data,
           [d1, d2] ++ ":".data ++ [d3, d4] ++ ":00Z".data) := by
  have hA : ∀ x ∈ [c1, c2, c3, c4] ++ z1, x ≠ '-' := by
    intro x hx
    rcases List.mem_append.mp hx with h | h
    · simp at h
      rcases h with rfl | rfl | rfl | rfl
      · exact digit_ne_dash h1
      · exact digit_ne_dash h2
      · exact digit_ne_dash h3
      · exact digit_ne_dash h4
    · rcases hz1 with rfl | rfl
      · simp at h
      · simp at h
        subst h
        decide
  have hB : ∀ x ∈ [d1, d2, d3, d4] ++ z2, x ≠ '-' := by
    intro x hx
    rcases List.mem_append.mp hx with h | h
    · simp at h
      rcases h with rfl | rfl | rfl | rfl
      · exact digit_ne_dash h5
      · exact digit_ne_dash h6
      · exact digit_ne_dash h7
      · exact digit_ne_dash h8
    · rcases hz2 with rfl | rfl
      · simp at h
      · simp at h
        subst h
        decide
  have hsplit : splitOn '-' ([c1, c2, c3, c4] ++ z1 ++ '-' :: ([d1, d2, d3, d4] ++ z2)) =
      [[c1, c2, c3, c4] ++ z1, [d1, d2, d3, d4] ++ z2] := by
    rw [splitOn_append '-' _ _ hA, splitOn_eq_single '-' _ hB]
  rw [parseTimePart_two_parts _ _ _ hsplit]
  rfl

/-- C4 (witness): the concrete fragment of the spec. -/
theorem parseTimePart_wellFormed_witness :
    parseTimePart "1200-1430".data = .ok ("12:00:00Z".data, "14:30:00Z".data) :=
  parseTimePart_wellFormed '1' '2' '0' '0' '1' '4' '3' '0' [] []
    (by decide) (by decide) (by decide) (by decide)
    (by decide) (by decide) (by decide) (by decide) (Or.inl rfl) (Or.inl rfl)

/-! ### C3 -/

theorem wordChar_ne {x : Char} (h : wordChar x = true) (c : Char)
    (hc : wordChar c = false) : x ≠ c := by
  intro he
  subst he
  rw [h] at hc
  exact Bool.noConfusion hc

theorem wordChar_of_digitChar {x : Char} (h : digitChar x = true) : wordChar x = true := by
  have hd : x.isDigit = true := h
  simp [wordChar, Char.isAlphanum, hd]

theorem not_ws_of_wordChar {x : Char} (h : wordChar x = true) : isWsChar x = false := by
  cases hb : isWsChar x with
  | false => rfl
  | true =>
    exfalso
    have hx : ((x = ' ' ∨ x = '\t') ∨ x = '\n') ∨ x = '\r' := by
      simpa [isWsChar] using hb
    rcases hx with ((rfl | rfl) | rfl) | rfl <;> exact absurd h (by decide)

theorem not_ws_of_digitChar {x : Char} (h : digitChar x = true) : isWsChar x = false :=
  not_ws_of_wordChar (wordChar_of_digitChar h)

/-- C3: the Date-Range Parser handles both accepted fragment shapes.
When both sides carry a month (`day1 MON1/day2 MON2`), each side
resolves its own month; when only the second side carries a month
(`day1/day2 MON`), the first side's day is paired with the second
side's month.  Either way the output dates are `year-MM-DD` with month
and day zero-padded to two digits (`fmtDate`). -/
theorem parseDatePart_both_shapes (d1 m1 d2 m2 : Str) (year n1 n2 : Nat)
    (hd1 : d1 ≠ []) (hd1d : d1.all digitChar = true)
    (hm1 : m1 ≠ []) (hm1w : m1.all wordChar = true)
    (hd2 : d2 ≠ []) (hd2d : d2.all digitChar = true)
    (hm2 : m2 ≠ []) (hm2w : m2.all wordChar = true)
    (hn1 : getMonth m1 = .ok n1) (hn2 : getMonth m2 = .ok n2) :
    parseDatePart (d1 ++ ' ' :: m1 ++ '/' :: (d2 ++ ' ' :: m2)) year =
      .ok (fmtDate year n1 d1, fmtDate year n2 d2) ∧
    parseDatePart (d1 ++ '/' :: (d2 ++ ' ' :: m2)) year =
      .ok (fmtDate year n2 d1, fmtDate year n2 d2) := by
  have hd1m := List.all_eq_true.mp hd1d
  have hm1m := List.all_eq_true.mp hm1w
  have hd2m := List.all_eq_true.mp hd2d
  have hm2m := List.all_eq_true.mp hm2w
  have hA_ne_slash : ∀ x ∈ d1 ++ ' ' :: m1, x ≠ '/' := by
    intro x hx
    rcases List.mem_append.mp hx with h | h
    · exact wordChar_ne (wordChar_of_digitChar (hd1m x h)) '/' (by decide)
    · rcases List.mem_cons.mp h with rfl | h
      · decide
      · exact wordChar_ne (hm1m x h) '/' (by decide)
  have hB_ne_slash : ∀ x ∈ d2 ++ ' ' :: m2, x ≠ '/' := by
    intro x hx
    rcases List.mem_append.mp hx with h | h
    · exact wordChar_ne (wordChar_of_digitChar (hd2m x h)) '/' (by decide)
    · rcases List.mem_cons.mp h with rfl | h
      · decide
      · exact wordChar_ne (hm2m x h) '/' (by decide)
  have hd1_ne_slash : ∀ x ∈ d1, x ≠ '/' := fun x h =>
    wordChar_ne (wordChar_of_digitChar (hd1m x h)) '/' (by decide)
  have hd1_ne_space : ∀ x ∈ d1, x ≠ ' ' := fun x h =>
    wordChar_ne (wordChar_of_digitChar (hd1m x h)) ' ' (by decide)
  have hm1_ne_space : ∀ x ∈ m1, x ≠ ' ' := fun x h =>
    wordChar_ne (hm1m x h) ' ' (by decide)
  have hd2_ne_space : ∀ x ∈ d2, x ≠ ' ' := fun x h =>
    wordChar_ne (wordChar_of_digitChar (hd2m x h)) ' ' (by decide)
  have hm2_ne_space : ∀ x ∈ m2, x ≠ ' ' := fun x h =>
    wordChar_ne (hm2m x h) ' ' (by decide)
  have hsplitA : splitOn ' ' (d1 ++ ' ' :: m1) = [d1, m1] := by
    rw [splitOn_append ' ' _ _ hd1_ne_space, splitOn_eq_single ' ' _ hm1_ne_space]
  have hsplitB : splitOn ' ' (d2 ++ ' ' :: m2) = [d2, m2] := by
    rw [splitOn_append ' ' _ _ hd2_ne_space, splitOn_eq_single ' ' _ hm2_ne_space]
  have htrimA : trim (d1 ++ ' ' :: m1) = d1 ++ ' ' :: m1 := by
    apply trim_eq_self_of_ends
    · intro c hc
      rw [List.head?_append_of_ne_nil _ hd1] at hc
      exact not_ws_of_digitChar (hd1m c (List.mem_of_mem_head? hc))
    · intro c hc
      rw [List.getLast?_append_of_ne_nil _ (show (' ' :: m1) ≠ [] by simp)] at hc
      rw [show ' ' :: m1 = [' '] ++ m1 from rfl,
        List.getLast?_append_of_ne_nil _ hm1] at hc
      exact not_ws_of_wordChar (hm1m c (List.mem_of_mem_getLast? hc))
  have htrimB : trim (d2 ++ ' ' :: m2) = d2 ++ ' ' :: m2 := by
    apply trim_eq_self_of_ends
    · intro c hc
      rw [List.head?_append_of_ne_nil _ hd2] at hc
      exact not_ws_of_digitChar (hd2m c (List.mem_of_mem_head? hc))
    · intro c hc
      rw [List.getLast?_append_of_ne_nil _ (show (' ' :: m2) ≠ [] by simp)] at hc
      rw [show ' ' :: m2 = [' '] ++ m2 from rfl,
        List.getLast?_append_of_ne_nil _ hm2] at hc
      exact not_ws_of_wordChar (hm2m c (List.mem_of_mem_getLast? hc))
  have htrimd1 : trim d1 = d1 :=
    trim_eq_self_of_all d1 fun x hx => not_ws_of_digitChar (hd1m x hx)
  have hcontA : (d1 ++ ' ' :: m1).contains ' ' = true :=
    List.elem_eq_true_of_mem (by simp)
  have hcontd1 : d1.contains ' ' = false := by
    cases hb : d1.contains ' ' with
    | false => rfl
    | true =>
      exfalso
      have hmemd : ' ' ∈ d1 := List.elem_iff.mp hb
      exact absurd (hd1m ' ' hmemd) (by decide)
  constructor
  · have hsm : (splitOn '/' (d1 ++ ' ' :: m1 ++ '/' :: (d2 ++ ' ' :: m2))).map trim
        = [d1 ++ ' ' :: m1, d2 ++ ' ' :: m2] := by
      rw [splitOn_append '/' _ _ hA_ne_slash, splitOn_eq_single '/' _ hB_ne_slash]
      simp only [List.map_cons, List.map_nil]
      rw [htrimA, htrimB]
    simp only [parseDatePart]
    rw [hsm]
    rw [if_pos (show (([d1 ++ ' ' :: m1, d2 ++ ' ' :: m2] : List Str).length = 2) from rfl)]
    simp only [List.headD, List.getElem?_cons_succ, List.getElem?_cons_zero, Option.getD_some]
    rw [hcontA]
    rw [if_pos rfl]
    rw [hsplitA, hsplitB]
    simp only [List.getElem?_cons_succ, List.getElem?_cons_zero, jsGetMonth, List.headD]
    rw [hn1, hn2]
    rfl
  · have hsm : (splitOn '/' (d1 ++ '/' :: (d2 ++ ' ' :: m2))).map trim
        = [d1, d2 ++ ' ' :: m2] := by
      rw [splitOn_append '/' _ _ hd1_ne_slash, splitOn_eq_single '/' _ hB_ne_slash]
      simp only [List.map_cons, List.map_nil]
      rw [htrimd1, htrimB]
    simp only [parseDatePart]
    rw [hsm]
    rw [if_pos (show (([d1, d2 ++ ' ' :: m2] : List Str).length = 2) from rfl)]
    simp only [List.headD, List.getElem?_cons_succ, List.getElem?_cons_zero, Option.getD_some]
    rw [hcontd1]
    rw [if_neg (by simp)]
    rw [hsplitB]
    simp only [List.getElem?_cons_succ, List.getElem?_cons_zero, jsGetMonth, List.headD]
    rw [hn2]
    rfl

/-- C3 (witness): the two concrete fragments of the spec. -/
theorem parseDatePart_both_shapes_witness :
    parseDatePart "3 JAN/5 FEB".data 2024 = .ok ("2024-01-03".data, "2024-02-05".data) ∧
    parseDatePart "3/5 JAN".data 2024 = .ok ("2024-01-03".data, "2024-01-05".data) := by
  constructor
  · exact (parseDatePart_both_shapes "3".data "JAN".data "5".data "FEB".data 2024 1 2
      (by decide) (by decide) (by decide) (by decide) (by decide) (by decide)
      (by decide) (by decide) rfl rfl).1
  · exact (parseDatePart_both_shapes "3".data "JAN".data "5".data "JAN".data 2024 1 1
      (by decide) (by decide) (by decide) (by decide) (by decide) (by decide)
      (by decide) (by decide) rfl rfl).2

/-! ### C9 -/

/-- The `advisoryid` keys of the stored records, in store order. -/
def storeIds (t : List Advisory) : List Int := t.map fun a => a.advisoryid

theorem storeIds_cons (r : Advisory) (l : List Advisory) :
    storeIds (r :: l) = r.advisoryid :: storeIds l := rfl

theorem mem_storeIds_replace_self (t : List Advisory) (doc : Advisory) :
    doc.advisoryid ∈ storeIds (replaceFirstById t doc) := by
  induction t with
  | nil => simp [replaceFirstById, storeIds]
  | cons r rest ih =>
    by_cases h : r.advisoryid = doc.advisoryid
    · simp [replaceFirstById, h, storeIds]
    · simp only [replaceFirstById, if_neg h, storeIds_cons, List.mem_cons]
      exact Or.inr ih

theorem mem_storeIds_replace_of_mem (t : List Advisory) (doc : Advisory) (i : Int)
    (h : i ∈ storeIds t) : i ∈ storeIds (replaceFirstById t doc) := by
  induction t with
  | nil => simp [storeIds] at h
  | cons r rest ih =>
    by_cases hr : r.advisoryid = doc.advisoryid
    · simp only [replaceFirstById, if_pos hr, storeIds_cons, List.mem_cons] at h ⊢
      rcases h with h | h
      · exact Or.inl (h.trans hr)
      · exact Or.inr h
    · simp only [replaceFirstById, if_neg hr, storeIds_cons, List.mem_cons] at h ⊢
      rcases h with h | h
      · exact Or.inl h
      · exact Or.inr (ih h)

theorem replace_absorb (t : List Advisory) (a b : Advisory)
    (hab : a.advisoryid = b.advisoryid) :
    replaceFirstById (replaceFirstById t a) b = replaceFirstById t b := by
  induction t with
  | nil => simp [replaceFirstById, hab]
  | cons r rest ih =>
    by_cases hr : r.advisoryid = a.advisoryid
    · simp [replaceFirstById, hr, hab, hr.trans hab]
    · have hrb : ¬r.advisoryid = b.advisoryid := fun he => hr (he.trans hab.symm)
      simp [replaceFirstById, hr, hrb, ih]

theorem replace_comm (t : List Advisory) (a q : Advisory)
    (ha : a.advisoryid ∈ storeIds t) (hq : q.advisoryid ≠ a.advisoryid) :
    replaceFirstById (replaceFirstById t a) q =
      replaceFirstById (replaceFirstById t q) a := by
  induction t with
  | nil => simp [storeIds] at ha
  | cons r rest ih =>
    by_cases hra : r.advisoryid = a.advisoryid
    · have hrq : ¬r.advisoryid = q.advisoryid := fun he => hq ((he.symm.trans hra))
      have haq : ¬a.advisoryid = q.advisoryid := fun he => hq he.symm
      simp [replaceFirstById, hra, hrq, haq]
    · by_cases hrq : r.advisoryid = q.advisoryid
      · simp [replaceFirstById, hra, hrq, hq]
      · have ha2 : a.advisoryid ∈ storeIds rest := by
          simp only [storeIds_cons, List.mem_cons] at ha
          rcases ha with h | h
          · exact absurd h.symm hra
          · exact h
        simp [replaceFirstById, hra, hrq, ih ha2]

theorem foldl_replace_mem_ids (B : List Advisory) :
    ∀ (t : List Advisory) (i : Int), i ∈ storeIds t →
      i ∈ storeIds (B.foldl replaceFirstById t) := by
  induction B with
  | nil => intro t i h; simpa using h
  | cons q B2 ih =>
    intro t i h
    exact ih _ i (mem_storeIds_replace_of_mem t q i h)

theorem foldl_replace_pullout (B : List Advisory) :
    ∀ (t : List Advisory) (a : Advisory), a.advisoryid ∈ storeIds t →
      (∀ q ∈ B, q.advisoryid ≠ a.advisoryid) →
      B.foldl replaceFirstById (replaceFirstById t a) =
        replaceFirstById (B.foldl replaceFirstById t) a := by
  induction B with
  | nil => intro t a _ _; rfl
  | cons q B2 ih =>
    intro t a ha hB
    have hq : q.advisoryid ≠ a.advisoryid := hB q (List.mem_cons_self q B2)
    simp only [List.foldl_cons]
    rw [replace_comm t a q ha hq]
    exact ih (replaceFirstById t q) a (mem_storeIds_replace_of_mem t q _ ha)
      fun p hp => hB p (List.mem_cons_of_mem q hp)

theorem foldl_replace_absorb (B : List Advisory) :
    ∀ (t : List Advisory) (a : Advisory), a.advisoryid ∈ storeIds t →
      (∃ q ∈ B, q.advisoryid = a.advisoryid) →
      B.foldl replaceFirstById (replaceFirstById t a) = B.foldl replaceFirstById t := by
  induction B with
  | nil => intro t a _ h; simp at h
  | cons q B2 ih =>
    intro t a ha hex
    by_cases hqa : q.advisoryid = a.advisoryid
    · simp only [List.foldl_cons]
      rw [replace_absorb t a q hqa.symm]
    · obtain ⟨p, hp, hpa⟩ := hex
      have hpB : p ∈ B2 := by
        rcases List.mem_cons.mp hp with rfl | h
        · exact absurd hpa hqa
        · exact h
      simp only [List.foldl_cons]
      rw [replace_comm t a q ha hqa]
      exact ih (replaceFirstById t q) a (mem_storeIds_replace_of_mem t q _ ha) ⟨p, hpB, hpa⟩

theorem foldl_replace_twopass (B : List Advisory) :
    ∀ s : List Advisory,
      B.foldl replaceFirstById (B.foldl replaceFirstById s) = B.foldl replaceFirstById s := by
  induction B with
  | nil => intro s; rfl
  | cons a B2 ih =>
    intro s
    simp only [List.foldl_cons]
    have haT : a.advisoryid ∈
        storeIds (B2.foldl replaceFirstById (replaceFirstById s a)) :=
      foldl_replace_mem_ids B2 _ _ (mem_storeIds_replace_self s a)
    by_cases hq : ∃ q ∈ B2, q.advisoryid = a.advisoryid
    · rw [foldl_replace_absorb B2 _ a haT hq]
      exact ih (replaceFirstById s a)
    · push_neg at hq
      have h1 := foldl_replace_pullout B2 (replaceFirstById s a) a
        (mem_storeIds_replace_self s a) hq
      rw [replace_absorb s a a rfl] at h1
      rw [h1.symm]
      exact ih (replaceFirstById s a)

theorem storeIds_replace (t : List Advisory) (doc : Advisory) :
    storeIds (replaceFirstById t doc) =
      if doc.advisoryid ∈ storeIds t then storeIds t
      else storeIds t ++ [doc.advisoryid] := by
  induction t with
  | nil => simp [replaceFirstById, storeIds]
  | cons r rest ih =>
    by_cases hr : r.advisoryid = doc.advisoryid
    · rw [show replaceFirstById (r :: rest) doc = doc :: rest from by
        simp [replaceFirstById, hr]]
      rw [storeIds_cons, storeIds_cons]
      rw [if_pos (List.mem_cons.mpr (Or.inl hr.symm))]
      rw [hr]
    · rw [show replaceFirstById (r :: rest) doc = r :: replaceFirstById rest doc from by
        simp [replaceFirstById, hr]]
      rw [storeIds_cons, storeIds_cons, ih]
      have hne : doc.advisoryid ≠ r.advisoryid := fun he => hr he.symm
      by_cases hd : doc.advisoryid ∈ storeIds rest
      · rw [if_pos hd, if_pos (List.mem_cons.mpr (Or.inr hd))]
      · rw [if_neg hd, if_neg (by
          intro hmem
          rcases List.mem_cons.mp hmem with h | h
          · exact hne h
          · exact hd h)]
        rfl

theorem storeIds_foldl_nodup (B : List Advisory) :
    ∀ t : List Advisory, (storeIds t).Nodup →
      (storeIds (B.foldl replaceFirstById t)).Nodup := by
  induction B with
  | nil => intro t h; simpa using h
  | cons a B2 ih =>
    intro t h
    apply ih
    rw [storeIds_replace]
    by_cases hd : a.advisoryid ∈ storeIds t
    · rw [if_pos hd]; exact h
    · rw [if_neg hd]
      simp [List.nodup_append, h, hd]

theorem mem_replace_self (t : List Advisory) (doc : Advisory) :
    doc ∈ replaceFirstById t doc := by
  induction t with
  | nil => simp [replaceFirstById]
  | cons r rest ih =>
    by_cases hr : r.advisoryid = doc.advisoryid
    · simp [replaceFirstById, hr]
    · simp only [replaceFirstById, if_neg hr, List.mem_cons]
      exact Or.inr ih

theorem mem_replace_of_ne (t : List Advisory) (doc q : Advisory)
    (h : doc ∈ t) (hne : q.advisoryid ≠ doc.advisoryid) :
    doc ∈ replaceFirstById t q := by
  induction t with
  | nil => simp at h
  | cons r rest ih =>
    by_cases hr : r.advisoryid = q.advisoryid
    · simp only [replaceFirstById, if_pos hr, List.mem_cons]
      rcases List.mem_cons.mp h with rfl | h
      · exact absurd hr.symm hne
      · exact Or.inr h
    · simp only [replaceFirstById, if_neg hr, List.mem_cons]
      rcases List.mem_cons.mp h with rfl | h
      · exact Or.inl rfl
      · exact Or.inr (ih h)

theorem mem_foldl_replace (B : List Advisory) :
    ∀ (t : List Advisory) (doc : Advisory), doc ∈ t →
      (∀ q ∈ B, q.advisoryid ≠ doc.advisoryid) →
      doc ∈ B.foldl replaceFirstById t := by
  induction B with
  | nil => intro t doc h _; simpa using h
  | cons q B2 ih =>
    intro t doc h hB
    simp only [List.foldl_cons]
    exact ih _ doc (mem_replace_of_ne t doc q h (hB q (List.mem_cons_self q B2)))
      fun p hp => hB p (List.mem_cons_of_mem q hp)

theorem mem_foldl_replace_of_mem_batch (B : List Advisory) :
    ∀ (t : List Advisory) (doc : Advisory), doc ∈ B →
      (B.map fun a => a.advisoryid).Nodup → doc ∈ B.foldl replaceFirstById t := by
  induction B with
  | nil => intro t doc h _; simp at h
  | cons b B2 ih =>
    intro t doc h hnd
    simp only [List.map_cons, List.nodup_cons] at hnd
    rcases List.mem_cons.mp h with rfl | h
    · simp only [List.foldl_cons]
      apply mem_foldl_replace B2 (replaceFirstById t doc) doc (mem_replace_self t doc)
      intro q hq he
      exact hnd.1 (List.mem_map.mpr ⟨q, hq, he⟩)
    · simp only [List.foldl_cons]
      exact ih _ doc h hnd.2

theorem processAdvisories_eq_foldl (s rows : List Advisory) :
    processAdvisories s rows =
      ((relevantAdvisories rows).map enrichAdvisory).foldl replaceFirstById s := by
  simp only [processAdvisories]
  rw [List.foldl_map]

/-- C9: the per-record store step is an identity-keyed wholesale
replacement — the upserted document itself is in the resulting store,
with no field-level merge — and the ingestion pipeline is idempotent:
running it twice on an unchanged batch gives the same store as running
it once; it preserves one-record-per-identity (`Nodup` of the stored
keys); and, when the filtered batch carries distinct identities, every
filtered record's latest enrichment output is a record of the resulting
store. -/
theorem upsert_pipeline_idempotent :
    (∀ (t : List Advisory) (doc : Advisory), doc ∈ replaceFirstById t doc) ∧
    (∀ (store rows : List Advisory),
      processAdvisories (processAdvisories store rows) rows =
        processAdvisories store rows) ∧
    (∀ (store rows : List Advisory), (storeIds store).Nodup →
      (storeIds (processAdvisories store rows)).Nodup) ∧
    (∀ (store rows : List Advisory) (a : Advisory),
      ((relevantAdvisories rows).map fun r => r.advisoryid).Nodup →
      a ∈ relevantAdvisories rows →
      enrichAdvisory a ∈ processAdvisories store rows) := by
  refine ⟨mem_replace_self, ?_, ?_, ?_⟩
  · intro store rows
    simp only [processAdvisories_eq_foldl]
    exact foldl_replace_twopass _ _
  · intro store rows h
    simp only [processAdvisories_eq_foldl]
    exact storeIds_foldl_nodup _ _ h
  · intro store rows a hnd ha
    simp only [processAdvisories_eq_foldl]
    apply mem_foldl_replace_of_mem_batch
    · exact List.mem_map_of_mem enrichAdvisory ha
    · rw [List.map_map]
      exact hnd

/-- C9 (witness): the conjuncts instantiated on a concrete store and
batch. -/
theorem upsert_pipeline_idempotent_witness :
    processAdvisories (processAdvisories [] [sampleAdvisory]) [sampleAdvisory] =
      processAdvisories [] [sampleAdvisory] ∧
    (storeIds (processAdvisories [] [sampleAdvisory])).Nodup ∧
    enrichAdvisory sampleAdvisory ∈ processAdvisories [] [sampleAdvisory] :=
  ⟨upsert_pipeline_idempotent.2.1 [] [sampleAdvisory],
   upsert_pipeline_idempotent.2.2.1 [] [sampleAdvisory] (by decide),
   upsert_pipeline_idempotent.2.2.2 [] [sampleAdvisory] sampleAdvisory
     (by decide) (by decide)⟩

/-! ### C10 -/

/-- C10: the write trigger and the read endpoint address different
database/collection pairs, so an ingestion invocation never changes
what the read endpoint returns: a record that was not among the read
endpoint's documents is still not among them after any ingestion
invocation. -/
theorem read_write_targets_disjoint :
    writeTarget ≠ readTarget ∧
    (∀ (u : DbUniverse) (fr : Except FetchErr UpstreamResponse),
      readEndpointDocs (ingestInvocation u fr) = readEndpointDocs u) ∧
    (∀ (u : DbUniverse) (fr : Except FetchErr UpstreamResponse) (doc : Advisory),
      doc ∉ readEndpointDocs u → doc ∉ readEndpointDocs (ingestInvocation u fr)) := by
  refine ⟨by decide, ?_, ?_⟩
  · intro u fr
    simp only [readEndpointDocs, ingestInvocation]
    rw [if_neg (by decide : ¬(readTarget = writeTarget))]
  · intro u fr doc h
    simp only [readEndpointDocs, ingestInvocation]
    rw [if_neg (by decide : ¬(readTarget = writeTarget))]
    exact h

/-- C10 (witness): a concrete record upserted into an empty universe is
not among the read endpoint's documents. -/
theorem read_write_targets_disjoint_witness :
    sampleAdvisory ∉
      readEndpointDocs (ingestInvocation (fun _ => []) (.ok ⟨[sampleAdvisory]⟩)) :=
  read_write_targets_disjoint.2.2 (fun _ => []) (.ok ⟨[sampleAdvisory]⟩) sampleAdvisory
    (by simp [readEndpointDocs])

end FaaAdvisory
